import Mathlib

/-!
Shallow embedding of the validator-authorization voting snapshot of
`consensus/istanbul/backend/snapshot.go` (tr1sm0s1n/quorum).

Modelling conventions:
* `common.Address` (20 bytes) and `common.Hash` are modelled as `Nat`;
  byte-wise comparison of fixed-width big-endian byte arrays coincides with
  the numeric order, and only equality and ordering are used by the code.
* The Go `map[common.Address]Tally` is modelled as an association list with
  the exact operations the code performs (lookup, insert/update, delete);
  lookup returns the first binding, insertion overwrites the first binding
  of the key or appends, deletion removes the key.
* Signer recovery (`ecrecoverFromSignedHeader`, `ecrecoverFromCoinbase`) is
  an external cryptographic capability; a header carries the recovered
  identities as fields (`signer`, `qbftSigner`).  Recovery failure is out
  of the scope of the claims and is not modelled.
* `types.ExtractQbftExtra` is external; a header carries `extra : Option
  QbftExtra`, where `none` models a decoding failure.
* `apply` in Go operates on a deep copy of its receiver and never mutates
  it; the embedding is a pure function, which models exactly that
  copy-on-write behaviour.
-/

/-- Vote mirrors `Vote` of snapshot.go: a single vote an authorized validator
made to modify the list of authorizations. -/
structure Vote where
  validator : Nat
  block : Nat
  address : Nat
  authorize : Bool
deriving DecidableEq, Repr

/-- Tally mirrors `Tally` of snapshot.go: the current score of votes for one
target address. -/
structure Tally where
  authorize : Bool
  votes : Nat
deriving DecidableEq, Repr

/-- ValidatorVote mirrors `types.ValidatorVote`: the vote embedded in the
qbft extra data (recipient address and vote-type tag). -/
structure ValidatorVote where
  recipientAddress : Nat
  voteType : Nat
deriving DecidableEq, Repr

/-- QbftExtra models the decoded qbft extension data; only the optional
embedded vote is relevant to the snapshot logic. -/
structure QbftExtra where
  vote : Option ValidatorVote
deriving DecidableEq, Repr

/-- Header models the externally supplied `types.Header`: block number, the
block hash computed by `Hash()`, the coinbase/beneficiary field, the
nonce-like field, the identity recovered from the header signature
(`ecrecoverFromSignedHeader`), the identity recovered from the coinbase
field (`ecrecoverFromCoinbase`), and the decoded qbft extra data (`none`
when `types.ExtractQbftExtra` fails). -/
structure Header where
  number : Nat
  hash : Nat
  coinbase : Nat
  nonce : Nat
  signer : Nat
  qbftSigner : Nat
  extra : Option QbftExtra
deriving DecidableEq, Repr

/-- ValidatorSet is modelled from the spec: the external ordered-set
capability (`istanbul.ValidatorSet`) with membership lookup by identity,
insertion, removal, count, full listing and an ordering-policy identifier.
The proposer-ordering policy itself is out of scope; only its identifier
is carried. -/
structure ValidatorSet where
  validators : List Nat
  policy : Nat
deriving DecidableEq, Repr

/-- getByAddress is modelled from the spec: membership lookup by identity,
returning the stored identity or `none` (Go returns a nil validator). -/
def ValidatorSet.getByAddress (vs : ValidatorSet) (a : Nat) : Option Nat :=
  vs.validators.find? (fun x => x == a)

/-- size is modelled from the spec: the count of authorized identities. -/
def ValidatorSet.size (vs : ValidatorSet) : Nat :=
  vs.validators.length

/-- addValidator is modelled from the spec: insertion of an identity,
a no-op when the identity is already present. -/
def ValidatorSet.addValidator (vs : ValidatorSet) (a : Nat) : ValidatorSet :=
  if a ∈ vs.validators then vs
  else { vs with validators := vs.validators ++ [a] }

/-- removeValidator is modelled from the spec: removal of an identity. -/
def ValidatorSet.removeValidator (vs : ValidatorSet) (a : Nat) : ValidatorSet :=
  { vs with validators := vs.validators.filter (fun x => !(x == a)) }

/-- IstErr enumerates the error values surfaced by the snapshot fold:
`errInvalidVotingChain`, `errUnauthorized`, `errInvalidVote` and
`errInvalidExtraDataFormat`. -/
inductive IstErr where
  | invalidVotingChain
  | unauthorized
  | invalidVote
  | invalidExtraDataFormat
deriving DecidableEq, Repr

/-- Snapshot mirrors `Snapshot` of snapshot.go: the state of the
authorization voting at a given point in time. -/
structure Snapshot where
  epoch : Nat
  number : Nat
  hash : Nat
  votes : List Vote
  tally : List (Nat × Tally)
  valSet : ValidatorSet
deriving DecidableEq, Repr

/-- tallyLookup models reading `s.Tally[address]` on a Go map: the first
binding of the key, if any. -/
def tallyLookup (m : List (Nat × Tally)) (k : Nat) : Option Tally :=
  (m.find? (fun p => p.1 == k)).map (fun p => p.2)

/-- tallySet models `s.Tally[address] = t` on a Go map: overwrite the first
binding of the key, or append a fresh binding. -/
def tallySet : List (Nat × Tally) → Nat → Tally → List (Nat × Tally)
  | [], k, t => [(k, t)]
  | (k', t') :: rest, k, t =>
    if k' == k then (k, t) :: rest else (k', t') :: tallySet rest k t

/-- tallyErase models `delete(s.Tally, address)` on a Go map. -/
def tallyErase (m : List (Nat × Tally)) (k : Nat) : List (Nat × Tally) :=
  m.filter (fun p => !(p.1 == k))

/-- newSnapshot mirrors `newSnapshot`: a genesis snapshot with the given
startup parameters, empty vote log and empty tally. -/
def newSnapshot (epoch number hash : Nat) (valSet : ValidatorSet) : Snapshot :=
  { epoch := epoch, number := number, hash := hash,
    votes := [], tally := [], valSet := valSet }

/-- copy mirrors `Snapshot.copy`: in Go a deep copy of the snapshot; since
the embedding is pure, the copy is the value itself. -/
def Snapshot.copy (s : Snapshot) : Snapshot := s

/-- checkVote mirrors `Snapshot.checkVote`: whether the vote would change
the current authorization state. -/
def Snapshot.checkVote (s : Snapshot) (address : Nat) (authorize : Bool) : Bool :=
  ((s.valSet.getByAddress address).isSome && !authorize) ||
    (!(s.valSet.getByAddress address).isSome && authorize)

/-- cast mirrors `Snapshot.cast`: add a new vote into the tally; returns the
updated snapshot and whether the vote was counted. -/
def Snapshot.cast (s : Snapshot) (address : Nat) (authorize : Bool) : Snapshot × Bool :=
  if !s.checkVote address authorize then (s, false)
  else
    match tallyLookup s.tally address with
    | some old =>
      ({ s with tally := tallySet s.tally address { old with votes := old.votes + 1 } }, true)
    | none =>
      ({ s with tally := tallySet s.tally address { authorize := authorize, votes := 1 } }, true)

/-- uncastTally mirrors `Snapshot.uncast` on the tally map: remove a
previously cast vote; dangling or intent-mismatched votes are dropped. -/
def uncastTally (m : List (Nat × Tally)) (address : Nat) (authorize : Bool) :
    List (Nat × Tally) :=
  match tallyLookup m address with
  | none => m
  | some t =>
    if t.authorize != authorize then m
    else if 1 < t.votes then tallySet m address { t with votes := t.votes - 1 }
    else tallyErase m address

/-- nonceAuthVote is modelled from the spec: the reserved nonce value
(0xffffffffffffffff in go-ethereum) meaning an authorize vote on the
legacy path. -/
def nonceAuthVote : Nat := 0xffffffffffffffff

/-- nonceDropVote is modelled from the spec: the reserved nonce value
(0x0000000000000000) meaning a deauthorize vote on the legacy path. -/
def nonceDropVote : Nat := 0

/-- qbftAuthVote is modelled from the spec: the vote-type tag of an
authorize vote embedded in the qbft extra data. -/
def qbftAuthVote : Nat := 0xff

/-- qbftDropVote is modelled from the spec: the vote-type tag of a
deauthorize vote embedded in the qbft extra data. -/
def qbftDropVote : Nat := 0

/-- nonceIntent mirrors the nonce switch of `legacyApply`: the reserved
auth value means authorize, the reserved drop value means deauthorize,
anything else is an invalid vote (`none`). -/
def nonceIntent (nonce : Nat) : Option Bool :=
  if nonce == nonceAuthVote then some true
  else if nonce == nonceDropVote then some false
  else none

/-- voteTypeIntent mirrors the vote-type switch of `qbftApply`. -/
def voteTypeIntent (tag : Nat) : Option Bool :=
  if tag == qbftAuthVote then some true
  else if tag == qbftDropVote then some false
  else none

/-- epochClear mirrors the checkpoint handling shared by `legacyApply` and
`qbftApply`: on a block number that is a multiple of the epoch, the vote
log and the tally are cleared. -/
def epochClear (s : Snapshot) (number : Nat) : Snapshot :=
  if number % s.epoch == 0 then { s with votes := [], tally := [] } else s

/-- prevPred is the scan predicate of the duplicate-vote loop: an existing
log entry cast by this validator against this target. -/
def prevPred (validator target : Nat) (v : Vote) : Bool :=
  v.validator == validator && v.address == target

/-- discardPrev mirrors the "discard any previous votes from the validator"
loop shared by `legacyApply` and `qbftApply`: the first log entry cast by
the validator against the target is uncast from the tally and removed from
the chronological list; the loop breaks after the first match. -/
def discardPrev (s : Snapshot) (validator target : Nat) : Snapshot :=
  match s.votes.find? (prevPred validator target) with
  | none => s
  | some v =>
    { s with tally := uncastTally s.tally v.address v.authorize,
             votes := s.votes.eraseP (prevPred validator target) }

/-- castAndLog mirrors the "tally up the new vote" step shared by both
folds: if `cast` accepts the vote, a new Vote record is appended to the
chronological list. -/
def castAndLog (s : Snapshot) (validator target : Nat) (authorize : Bool)
    (number : Nat) : Snapshot :=
  match s.cast target authorize with
  | (s', true) =>
    { s' with votes := s'.votes ++
        [{ validator := validator, block := number, address := target,
           authorize := authorize }] }
  | (s', false) => s'

/-- discardByValidator mirrors the "discard any previous votes the
deauthorized validator cast" loop: walking the chronological list in
order, every vote cast by the removed identity is uncast from the tally
and dropped from the list. -/
def discardByValidator (x : Nat) :
    List Vote → List (Nat × Tally) → List Vote × List (Nat × Tally)
  | [], tal => ([], tal)
  | v :: vs, tal =>
    if v.validator == x then
      discardByValidator x vs (uncastTally tal v.address v.authorize)
    else
      let r := discardByValidator x vs tal
      (v :: r.1, r.2)

/-- resolveAfterCast mirrors the "if the vote passed, update the list of
validators" block shared by both folds: when the target's tally count
strictly exceeds half the validator-set size, the target is added or
removed, on removal every vote cast by the removed identity is uncast and
purged, and in both branches every remaining vote targeting the address is
purged and the target's tally entry is deleted.  A missing tally entry
reads as the Go zero value `{Authorize:false, Votes:0}`. -/
def resolveAfterCast (s : Snapshot) (target : Nat) : Snapshot :=
  let t := (tallyLookup s.tally target).getD { authorize := false, votes := 0 }
  if s.valSet.size / 2 < t.votes then
    let s1 :=
      if t.authorize then { s with valSet := s.valSet.addValidator target }
      else
        let r := discardByValidator target s.votes
          ({ s with valSet := s.valSet.removeValidator target }).tally
        { s with valSet := s.valSet.removeValidator target,
                 votes := r.1, tally := r.2 }
    { s1 with votes := s1.votes.filter (fun v => !(v.address == target)),
              tally := tallyErase s1.tally target }
  else s

/-- processVote is the common tail of `legacyApply` and `qbftApply` once
the signer is known to be authorized and the vote target is extracted:
discard the signer's previous vote against the target, decode the intent
(an unrecognized encoding fails with `errInvalidVote`), cast and log the
new vote, and run the majority resolution immediately after the cast. -/
def processVote (s : Snapshot) (validator target : Nat) (intent : Option Bool)
    (number : Nat) : Except IstErr Snapshot :=
  let s1 := discardPrev s validator target
  match intent with
  | none => .error .invalidVote
  | some authorize =>
    .ok (resolveAfterCast (castAndLog s1 validator target authorize number) target)

/-- legacyPost is `legacyApply` after the checkpoint handling: the signer
recovered from the header signature must be a current validator, the vote
target is the header's coinbase field and the intent is decoded from the
nonce field. -/
def legacyPost (s : Snapshot) (h : Header) : Except IstErr Snapshot :=
  if (s.valSet.getByAddress h.signer).isSome = false then .error .unauthorized
  else processVote s h.signer h.coinbase (nonceIntent h.nonce) h.number

/-- legacyApply mirrors `Snapshot.legacyApply`. -/
def legacyApply (s : Snapshot) (h : Header) : Except IstErr Snapshot :=
  legacyPost (epochClear s h.number) h

/-- qbftPost is `qbftApply` after the checkpoint handling: the signer
recovered from the coinbase field must be a current validator, the extra
data must decode (`errInvalidExtraDataFormat` otherwise), a missing
embedded vote defaults to a drop vote against the zero address, and the
intent is decoded from the vote-type tag. -/
def qbftPost (s : Snapshot) (h : Header) : Except IstErr Snapshot :=
  if (s.valSet.getByAddress h.qbftSigner).isSome = false then .error .unauthorized
  else
    match h.extra with
    | none => .error .invalidExtraDataFormat
    | some extra =>
      let vv := extra.vote.getD
        { recipientAddress := 0, voteType := qbftDropVote }
      processVote s h.qbftSigner vv.recipientAddress
        (voteTypeIntent vv.voteType) h.number

/-- qbftApply mirrors `Snapshot.qbftApply`. -/
def qbftApply (s : Snapshot) (h : Header) : Except IstErr Snapshot :=
  qbftPost (epochClear s h.number) h

/-- contiguousRun mirrors the sanity-check loop of `apply`: every adjacent
pair of headers must have consecutive block numbers. -/
def contiguousRun : List Header → Bool
  | [] => true
  | [_] => true
  | h1 :: h2 :: rest =>
    (h2.number == h1.number + 1) && contiguousRun (h2 :: rest)

/-- foldHeaders mirrors the header loop of `apply`: each header is folded
with `qbftApply` when qbft consensus is active and the header's number
exceeds the qbft transition block, and with `legacyApply` otherwise; the
first error aborts the fold. -/
def foldHeaders (isQBFTConsensus : Bool) (qbftBlockNumber : Int) :
    Snapshot → List Header → Except IstErr Snapshot
  | s, [] => .ok s
  | s, h :: rest =>
    match (if isQBFTConsensus && ((h.number : Int) > qbftBlockNumber)
           then qbftApply s h else legacyApply s h) with
    | .error e => .error e
    | .ok s' => foldHeaders isQBFTConsensus qbftBlockNumber s' rest

/-- lastHash computes `headers[len(headers)-1].Hash()`. -/
def lastHash (h : Header) : List Header → Nat
  | [] => h.hash
  | h' :: rest => lastHash h' rest

/-- apply mirrors `Snapshot.apply`: no headers is a no-op returning the
receiver; a non-contiguous run or a first header that does not extend the
snapshot's height fails with `errInvalidVotingChain`; otherwise the headers
are folded into a copy of the receiver, the block number advances by the
header count and the hash becomes the last header's hash. -/
def Snapshot.apply (s : Snapshot) (headers : List Header)
    (isQBFTConsensus : Bool) (qbftBlockNumber : Int) : Except IstErr Snapshot :=
  match headers with
  | [] => .ok s
  | h0 :: rest =>
    if contiguousRun (h0 :: rest) = false then .error .invalidVotingChain
    else if (h0.number == s.number + 1) = false then .error .invalidVotingChain
    else
      match foldHeaders isQBFTConsensus qbftBlockNumber s.copy (h0 :: rest) with
      | .error e => .error e
      | .ok snap =>
        .ok { snap with number := s.number + (h0 :: rest).length,
                        hash := lastHash h0 rest }

/-- validators mirrors `Snapshot.validators`: the list of authorized
identities in ascending order (the source's exchange sort is embedded as
an insertion sort; both return the ascending reordering of the listing). -/
def Snapshot.validators (s : Snapshot) : List Nat :=
  s.valSet.validators.insertionSort (fun a b => a ≤ b)

/-- SnapshotJSON mirrors `snapshotJSON`: the persisted record layout with
the sorted validator identity list and the ordering-policy identifier in
place of the internal set representation. -/
structure SnapshotJSON where
  epoch : Nat
  number : Nat
  hash : Nat
  votes : List Vote
  tally : List (Nat × Tally)
  validators : List Nat
  policy : Nat
deriving DecidableEq, Repr

/-- toJSONStruct mirrors `Snapshot.toJSONStruct`. -/
def Snapshot.toJSONStruct (s : Snapshot) : SnapshotJSON :=
  { epoch := s.epoch, number := s.number, hash := s.hash,
    votes := s.votes, tally := s.tally,
    validators := s.validators, policy := s.valSet.policy }

/-- newSet is modelled from the spec: construction of the external
validator-set capability from an identity list and a policy identifier
(`validator.NewSet`); the already-decided membership order is carried
verbatim by the identity list. -/
def newSet (l : List Nat) (policy : Nat) : ValidatorSet :=
  { validators := l, policy := policy }

/-- unmarshalSnapshot mirrors `Snapshot.UnmarshalJSON` after the external
JSON byte decoding: every field is taken from the record and the validator
set is reconstructed from the identity list and the policy identifier. -/
def unmarshalSnapshot (j : SnapshotJSON) : Snapshot :=
  { epoch := j.epoch, number := j.number, hash := j.hash,
    votes := j.votes, tally := j.tally,
    valSet := newSet j.validators j.policy }

/-- Reachable marks the snapshots obtainable from a genesis snapshot by
any sequence of successful `apply` calls (in either consensus mode). -/
inductive Reachable : Snapshot → Prop where
  | genesis (epoch number hash : Nat) (valSet : ValidatorSet) :
      Reachable (newSnapshot epoch number hash valSet)
  | step {s s' : Snapshot} (headers : List Header) (isQBFTConsensus : Bool)
      (qbftBlockNumber : Int) :
      Reachable s → s.apply headers isQBFTConsensus qbftBlockNumber = .ok s' →
      Reachable s'

/-- targCount counts the log entries targeting an address. -/
def targCount (vs : List Vote) (T : Nat) : Nat :=
  vs.countP (fun v => v.address == T)

/-- pairCount counts the log entries cast by a given validator against a
given target. -/
def pairCount (vs : List Vote) (S T : Nat) : Nat :=
  vs.countP (prevPred S T)

/-- Consistent states that a tally is exactly the aggregate of a vote log:
an address has a tally entry iff the log has an entry targeting it, the
count equals the number of log entries targeting it (hence is at least 1),
and every such log entry carries the tally entry's intent. -/
def Consistent (vs : List Vote) (tal : List (Nat × Tally)) : Prop :=
  ∀ T : Nat,
    (tallyLookup tal T = none → targCount vs T = 0) ∧
    (∀ t : Tally, tallyLookup tal T = some t →
      t.votes = targCount vs T ∧ 1 ≤ t.votes ∧
      ∀ v ∈ vs, v.address = T → v.authorize = t.authorize)

/-- IntentOk states that every tally entry's intent agrees with current
validator membership: an authorize entry targets a non-member, a
deauthorize entry targets a member. -/
def IntentOk (valSet : ValidatorSet) (tal : List (Nat × Tally)) : Prop :=
  ∀ T : Nat, ∀ t : Tally, tallyLookup tal T = some t →
    (t.authorize = true ↔ T ∉ valSet.validators)

/-- PairUnique states that a validator has at most one live vote against
any given target. -/
def PairUnique (vs : List Vote) : Prop :=
  ∀ S T : Nat, pairCount vs S T ≤ 1

/-- SnapInv is the conjunction of the snapshot invariants maintained by
the fold. -/
def SnapInv (s : Snapshot) : Prop :=
  Consistent s.votes s.tally ∧ IntentOk s.valSet s.tally ∧ PairUnique s.votes

/-- uncastAll folds `uncastTally` over a list of votes in order; it is the
net tally effect of the purge loop for a deauthorized validator. -/
def uncastAll (vs : List Vote) (tal : List (Nat × Tally)) : List (Nat × Tally) :=
  vs.foldl (fun t v => uncastTally t v.address v.authorize) tal

/-- postCastState is the snapshot state immediately after a header's vote
has been cast: the signer's previous vote against the target has been
discarded and the new vote has been tallied and logged, but the majority
resolution has not yet run.  `processVote` is exactly
`resolveAfterCast (postCastState ...)` on this state. -/
def postCastState (s : Snapshot) (V T : Nat) (a : Bool) (n : Nat) : Snapshot :=
  castAndLog (discardPrev s V T) V T a n

/-- tallyVotesAt reads the count of the target's tally entry, with the Go
zero value 0 for a missing entry. -/
def tallyVotesAt (s : Snapshot) (T : Nat) : Nat :=
  ((tallyLookup s.tally T).getD { authorize := false, votes := 0 }).votes

/-- tallyAuthorizeAt reads the intent of the target's tally entry, with the
Go zero value false for a missing entry. -/
def tallyAuthorizeAt (s : Snapshot) (T : Nat) : Bool :=
  ((tallyLookup s.tally T).getD { authorize := false, votes := 0 }).authorize

/-- vset3 is a concrete three-member validator set used in the concrete
evaluations below. -/
def vset3 : ValidatorSet := { validators := [1, 2, 3], policy := 0 }

/-- gen3 is a concrete genesis snapshot (epoch 10, anchored at block 0)
over `vset3`. -/
def gen3 : Snapshot := newSnapshot 10 0 0 vset3

/-- hAuth4 is block 1 signed by validator 1 carrying a legacy authorize
vote for address 4. -/
def hAuth4 : Header :=
  { number := 1, hash := 7, coinbase := 4, nonce := nonceAuthVote,
    signer := 1, qbftSigner := 1, extra := none }

/-- hAuth5 is block 2 signed by validator 1 carrying a legacy authorize
vote for address 5. -/
def hAuth5 : Header :=
  { number := 2, hash := 8, coinbase := 5, nonce := nonceAuthVote,
    signer := 1, qbftSigner := 1, extra := none }

/-- hGap is a header with block number 3, leaving a gap when played
directly after `hAuth4`. -/
def hGap : Header :=
  { number := 3, hash := 9, coinbase := 4, nonce := nonceAuthVote,
    signer := 1, qbftSigner := 1, extra := none }

/-- snap45 is the snapshot reached from `gen3` by folding `hAuth4` then
`hAuth5`: validator 1 holds two live votes, one against 4 and one
against 5 (neither reached a majority over three validators). -/
def snap45 : Snapshot :=
  { epoch := 10, number := 2, hash := 8,
    votes := [{ validator := 1, block := 1, address := 4, authorize := true },
              { validator := 1, block := 2, address := 5, authorize := true }],
    tally := [(4, { authorize := true, votes := 1 }),
              (5, { authorize := true, votes := 1 })],
    valSet := vset3 }

/-- snapA is a genesis snapshot at height 100 whose validator set is the
single identity 1 (the spec's immediate-resolution scenario). -/
def snapA : Snapshot := newSnapshot 10 100 0 { validators := [1], policy := 0 }

/-- snapAfterAdd is the snapshot after validator 1 votes (at block 101) to
authorize address 2 on top of `snapA`: with one validator the single vote
is an immediate majority, so 2 is added and the vote purged. -/
def snapAfterAdd : Snapshot :=
  { epoch := 10, number := 100, hash := 0, votes := [], tally := [],
    valSet := { validators := [1, 2], policy := 0 } }

/-- genEpoch5 is a genesis snapshot with epoch 5 anchored at block 9. -/
def genEpoch5 : Snapshot := newSnapshot 5 9 0 vset3

/-- hEpoch is block 10 (an epoch multiple for epoch 5) signed by
validator 1, carrying votes on both encodings. -/
def hEpoch : Header :=
  { number := 10, hash := 11, coinbase := 4, nonce := nonceAuthVote,
    signer := 1, qbftSigner := 1,
    extra := some { vote := some { recipientAddress := 4,
                                   voteType := qbftAuthVote } } }

/-- hBadTag is a qbft header whose embedded vote carries the unrecognized
vote-type tag 7. -/
def hBadTag : Header :=
  { number := 1, hash := 7, coinbase := 0, nonce := 0,
    signer := 1, qbftSigner := 1,
    extra := some { vote := some { recipientAddress := 4, voteType := 7 } } }

/-- hUnauthNoExtra is a qbft header whose recovered signer (9) is not a
validator of `vset3` and whose extra data fails to decode. -/
def hUnauthNoExtra : Header :=
  { number := 1, hash := 7, coinbase := 0, nonce := 0,
    signer := 9, qbftSigner := 9, extra := none }

/-- zeroDropVote is the default embedded vote used by `qbftApply` when the
decoded extra data carries no vote: a drop vote against the zero
identity. -/
def zeroDropVote : ValidatorVote :=
  { recipientAddress := 0, voteType := qbftDropVote }

/-- withDropVote replaces a header's extra data by a decoded extra whose
embedded vote is the explicit default drop vote against the zero
identity. -/
def withDropVote (h : Header) : Header :=
  { h with extra := some { vote := some zeroDropVote } }

theorem tallyLookup_nil (k : Nat) : tallyLookup [] k = none := rfl

theorem tallyLookup_cons (p : Nat × Tally) (m : List (Nat × Tally)) (k : Nat) :
    tallyLookup (p :: m) k = if p.1 = k then some p.2 else tallyLookup m k := by
  by_cases h : p.1 = k
  · simp [tallyLookup, List.find?_cons_of_pos, h]
  · simp only [tallyLookup]
    rw [List.find?_cons_of_neg]
    · simp [h]
    · simp [h]

theorem tallyLookup_tallySet_self (m : List (Nat × Tally)) (k : Nat) (t : Tally) :
    tallyLookup (tallySet m k t) k = some t := by
  induction m with
  | nil => simp [tallySet, tallyLookup_cons]
  | cons p rest ih =>
    by_cases h : p.1 = k
    · obtain ⟨k', t'⟩ := p
      simp only at h
      simp [tallySet, h, tallyLookup_cons]
    · obtain ⟨k', t'⟩ := p
      simp only at h
      simp only [tallySet, beq_iff_eq, h, if_false]
      rw [tallyLookup_cons]
      simp [h, ih]

theorem tallyLookup_tallySet_ne (m : List (Nat × Tally)) (k : Nat) (t : Tally)
    (k' : Nat) (h : k' ≠ k) :
    tallyLookup (tallySet m k t) k' = tallyLookup m k' := by
  induction m with
  | nil =>
    rw [show tallySet [] k t = [(k, t)] from rfl, tallyLookup_cons]
    rw [if_neg (Ne.symm h), tallyLookup_nil]
  | cons p rest ih =>
    obtain ⟨k0, t0⟩ := p
    by_cases hk : k0 = k
    · subst hk
      simp only [tallySet, beq_self_eq_true, if_true]
      rw [tallyLookup_cons, tallyLookup_cons]
      rw [if_neg (Ne.symm h), if_neg (Ne.symm h)]
    · simp only [tallySet, beq_iff_eq, hk, if_false]
      rw [tallyLookup_cons, tallyLookup_cons, ih]

theorem tallyLookup_tallyErase_self (m : List (Nat × Tally)) (k : Nat) :
    tallyLookup (tallyErase m k) k = none := by
  simp only [tallyLookup, Option.map_eq_none', List.find?_eq_none]
  intro p hp
  have := List.of_mem_filter hp
  simp only [Bool.not_eq_true', beq_eq_false_iff_ne, ne_eq] at this
  simp [this]

theorem tallyLookup_tallyErase_ne (m : List (Nat × Tally)) (k : Nat)
    (k' : Nat) (h : k' ≠ k) :
    tallyLookup (tallyErase m k) k' = tallyLookup m k' := by
  induction m with
  | nil => rfl
  | cons p rest ih =>
    obtain ⟨k0, t0⟩ := p
    by_cases hk : k0 = k
    · subst hk
      have hstep : tallyErase ((k0, t0) :: rest) k0 = tallyErase rest k0 := by
        simp [tallyErase, List.filter_cons]
      rw [hstep, ih, tallyLookup_cons, if_neg (Ne.symm h)]
    · have hstep : tallyErase ((k0, t0) :: rest) k = (k0, t0) :: tallyErase rest k := by
        simp [tallyErase, List.filter_cons, hk]
      rw [hstep, tallyLookup_cons, tallyLookup_cons, ih]

theorem getByAddress_isSome_iff (vs : ValidatorSet) (a : Nat) :
    (vs.getByAddress a).isSome = true ↔ a ∈ vs.validators := by
  simp only [ValidatorSet.getByAddress, List.find?_isSome, beq_iff_eq]
  constructor
  · rintro ⟨x, hx, rfl⟩; exact hx
  · intro h; exact ⟨a, h, rfl⟩

theorem getByAddress_isNone_iff (vs : ValidatorSet) (a : Nat) :
    (vs.getByAddress a).isSome = false ↔ a ∉ vs.validators := by
  rw [← getByAddress_isSome_iff]
  cases (vs.getByAddress a).isSome <;> simp

theorem addValidator_mem_iff (vs : ValidatorSet) (a b : Nat) :
    b ∈ (vs.addValidator a).validators ↔ (b ∈ vs.validators ∨ b = a) := by
  simp only [ValidatorSet.addValidator]
  by_cases h : a ∈ vs.validators
  · simp only [h, if_true]
    constructor
    · exact Or.inl
    · rintro (hb | rfl)
      · exact hb
      · exact h
  · simp [h]

theorem removeValidator_mem_iff (vs : ValidatorSet) (a b : Nat) :
    b ∈ (vs.removeValidator a).validators ↔ (b ∈ vs.validators ∧ b ≠ a) := by
  simp [ValidatorSet.removeValidator, List.mem_filter]

theorem targCount_nil (T : Nat) : targCount [] T = 0 := rfl

theorem targCount_cons (v : Vote) (vs : List Vote) (T : Nat) :
    targCount (v :: vs) T = targCount vs T + (if v.address = T then 1 else 0) := by
  simp only [targCount, List.countP_cons, beq_iff_eq]

theorem targCount_append (vs ws : List Vote) (T : Nat) :
    targCount (vs ++ ws) T = targCount vs T + targCount ws T := by
  simp [targCount, List.countP_append]

theorem targCount_eq_zero_iff (vs : List Vote) (T : Nat) :
    targCount vs T = 0 ↔ ∀ v ∈ vs, v.address ≠ T := by
  simp [targCount, List.countP_eq_zero]

theorem pairCount_cons (v : Vote) (vs : List Vote) (S T : Nat) :
    pairCount (v :: vs) S T
      = pairCount vs S T + (if v.validator = S ∧ v.address = T then 1 else 0) := by
  simp only [pairCount, List.countP_cons, prevPred, Bool.and_eq_true, beq_iff_eq]

theorem pairCount_append (vs ws : List Vote) (S T : Nat) :
    pairCount (vs ++ ws) S T = pairCount vs S T + pairCount ws S T := by
  simp [pairCount, List.countP_append]

theorem pairCount_eq_zero_iff (vs : List Vote) (S T : Nat) :
    pairCount vs S T = 0 ↔ ∀ v ∈ vs, ¬(v.validator = S ∧ v.address = T) := by
  simp only [pairCount, List.countP_eq_zero, prevPred, Bool.and_eq_true, beq_iff_eq]

theorem consistent_nil (tal : List (Nat × Tally)) (h : tal = []) :
    Consistent [] tal := by
  subst h
  intro T
  refine ⟨fun _ => rfl, fun t ht => ?_⟩
  simp [tallyLookup_nil] at ht

theorem consistent_perm {vs vs' : List Vote} {tal : List (Nat × Tally)}
    (hp : vs.Perm vs') (h : Consistent vs tal) : Consistent vs' tal := by
  intro T
  obtain ⟨h1, h2⟩ := h T
  have hcnt : targCount vs' T = targCount vs T := by
    simp [targCount, hp.countP_eq]
  refine ⟨fun hn => by rw [hcnt]; exact h1 hn, fun t ht => ?_⟩
  obtain ⟨ha, hb, hc⟩ := h2 t ht
  exact ⟨by rw [hcnt]; exact ha, hb, fun v hv => hc v (hp.mem_iff.mpr hv)⟩

theorem consistent_uncast_cons {v : Vote} {vs : List Vote} {tal : List (Nat × Tally)}
    (h : Consistent (v :: vs) tal) :
    Consistent vs (uncastTally tal v.address v.authorize) := by
  obtain ⟨h1, h2⟩ := h v.address
  cases htal : tallyLookup tal v.address with
  | none =>
    exfalso
    have := h1 htal
    rw [targCount_cons, if_pos rfl] at this
    omega
  | some t =>
    obtain ⟨hcnt, hpos, hint⟩ := h2 t htal
    have hva : v.authorize = t.authorize := hint v (List.mem_cons_self v vs) rfl
    have hcnt' : t.votes = targCount vs v.address + 1 := by
      rw [hcnt, targCount_cons, if_pos rfl]
    have hunfold : uncastTally tal v.address v.authorize
        = if 1 < t.votes then tallySet tal v.address { t with votes := t.votes - 1 }
          else tallyErase tal v.address := by
      simp only [uncastTally, htal]
      have hb : (t.authorize != v.authorize) = false := by simp [hva]
      rw [hb]
      simp
    by_cases hgt : 1 < t.votes
    · rw [hunfold, if_pos hgt]
      intro T
      by_cases hT : T = v.address
      · subst hT
        rw [tallyLookup_tallySet_self]
        refine ⟨fun hn => by simp at hn, fun t' ht' => ?_⟩
        have ht'' : t' = { t with votes := t.votes - 1 } := by
          injection ht' with hh
          exact hh.symm
        subst ht''
        refine ⟨by simp; omega, by simp; omega, fun w hw hwT => ?_⟩
        have := hint w (List.mem_cons_of_mem v hw) hwT
        simp [this]
      · rw [tallyLookup_tallySet_ne _ _ _ _ hT]
        obtain ⟨g1, g2⟩ := h T
        have hskip : targCount vs T = targCount (v :: vs) T := by
          rw [targCount_cons, if_neg (fun hh => hT hh.symm)]
          omega
        refine ⟨fun hn => by rw [hskip]; exact g1 hn, fun t' ht' => ?_⟩
        obtain ⟨ga, gb, gc⟩ := g2 t' ht'
        exact ⟨by rw [hskip]; exact ga, gb,
          fun w hw hwT => gc w (List.mem_cons_of_mem v hw) hwT⟩
    · rw [hunfold, if_neg hgt]
      have hone : t.votes = 1 := by omega
      have hzero : targCount vs v.address = 0 := by omega
      intro T
      by_cases hT : T = v.address
      · subst hT
        rw [tallyLookup_tallyErase_self]
        exact ⟨fun _ => hzero, fun t' ht' => by simp at ht'⟩
      · rw [tallyLookup_tallyErase_ne _ _ _ hT]
        obtain ⟨g1, g2⟩ := h T
        have hskip : targCount vs T = targCount (v :: vs) T := by
          rw [targCount_cons, if_neg (fun hh => hT hh.symm)]
          omega
        refine ⟨fun hn => by rw [hskip]; exact g1 hn, fun t' ht' => ?_⟩
        obtain ⟨ga, gb, gc⟩ := g2 t' ht'
        exact ⟨by rw [hskip]; exact ga, gb,
          fun w hw hwT => gc w (List.mem_cons_of_mem v hw) hwT⟩

theorem uncastAll_nil (tal : List (Nat × Tally)) : uncastAll [] tal = tal := rfl

theorem uncastAll_cons (v : Vote) (vs : List Vote) (tal : List (Nat × Tally)) :
    uncastAll (v :: vs) tal = uncastAll vs (uncastTally tal v.address v.authorize) := rfl

theorem consistent_uncastAll {R K : List Vote} {tal : List (Nat × Tally)}
    (h : Consistent (R ++ K) tal) : Consistent K (uncastAll R tal) := by
  induction R generalizing tal with
  | nil => simpa [uncastAll_nil] using h
  | cons v R' ih =>
    rw [uncastAll_cons]
    exact ih (consistent_uncast_cons h)

theorem uncastTally_lookup_intent {m : List (Nat × Tally)} {a : Nat} {b : Bool}
    {U : Nat} {t' : Tally}
    (h : tallyLookup (uncastTally m a b) U = some t') :
    ∃ t : Tally, tallyLookup m U = some t ∧ t'.authorize = t.authorize := by
  by_cases hU : U = a
  · subst hU
    cases hm : tallyLookup m U with
    | none =>
      simp only [uncastTally, hm] at h
      exact absurd h (by simp)
    | some t =>
      refine ⟨t, rfl, ?_⟩
      simp only [uncastTally, hm] at h
      by_cases hb : (t.authorize != b) = true
      · rw [if_pos hb] at h
        rw [hm] at h
        injection h with hh
        rw [hh]
      · rw [if_neg hb] at h
        by_cases hv : 1 < t.votes
        · rw [if_pos hv, tallyLookup_tallySet_self] at h
          injection h with hh
          rw [← hh]
        · rw [if_neg hv, tallyLookup_tallyErase_self] at h
          exact absurd h (by simp)
  · cases hm : tallyLookup m a with
    | none =>
      simp only [uncastTally, hm] at h
      exact ⟨t', h, rfl⟩
    | some t =>
      simp only [uncastTally, hm] at h
      by_cases hb : (t.authorize != b) = true
      · rw [if_pos hb] at h
        exact ⟨t', h, rfl⟩
      · rw [if_neg hb] at h
        by_cases hv : 1 < t.votes
        · rw [if_pos hv, tallyLookup_tallySet_ne _ _ _ _ hU] at h
          exact ⟨t', h, rfl⟩
        · rw [if_neg hv, tallyLookup_tallyErase_ne _ _ _ hU] at h
          exact ⟨t', h, rfl⟩

theorem uncastAll_lookup_intent {R : List Vote} {tal : List (Nat × Tally)}
    {U : Nat} {t' : Tally}
    (h : tallyLookup (uncastAll R tal) U = some t') :
    ∃ t : Tally, tallyLookup tal U = some t ∧ t'.authorize = t.authorize := by
  induction R generalizing tal with
  | nil => exact ⟨t', h, rfl⟩
  | cons v R' ih =>
    rw [uncastAll_cons] at h
    obtain ⟨t1, ht1, he1⟩ := ih h
    obtain ⟨t0, ht0, he0⟩ := uncastTally_lookup_intent ht1
    exact ⟨t0, ht0, he1.trans he0⟩

theorem intentOk_uncastTally {valSet : ValidatorSet} {m : List (Nat × Tally)}
    (h : IntentOk valSet m) (a : Nat) (b : Bool) :
    IntentOk valSet (uncastTally m a b) := by
  intro T t' ht'
  obtain ⟨t, ht, he⟩ := uncastTally_lookup_intent ht'
  rw [he]
  exact h T t ht

theorem intentOk_uncastAll {valSet : ValidatorSet} {R : List Vote}
    {tal : List (Nat × Tally)} (h : IntentOk valSet tal) :
    IntentOk valSet (uncastAll R tal) := by
  intro T t' ht'
  obtain ⟨t, ht, he⟩ := uncastAll_lookup_intent ht'
  rw [he]
  exact h T t ht

theorem intentOk_tallyErase {valSet : ValidatorSet} {m : List (Nat × Tally)}
    (h : IntentOk valSet m) (k : Nat) : IntentOk valSet (tallyErase m k) := by
  intro T t ht
  by_cases hT : T = k
  · subst hT; rw [tallyLookup_tallyErase_self] at ht; exact absurd ht (by simp)
  · rw [tallyLookup_tallyErase_ne _ _ _ hT] at ht
    exact h T t ht

theorem discardByValidator_spec (x : Nat) (vs : List Vote) (tal : List (Nat × Tally)) :
    discardByValidator x vs tal
      = (vs.filter (fun v => !(v.validator == x)),
         uncastAll (vs.filter (fun v => v.validator == x)) tal) := by
  induction vs generalizing tal with
  | nil => rfl
  | cons v vs' ih =>
    by_cases hv : v.validator = x
    · rw [discardByValidator, if_pos (by simp [hv])]
      rw [ih]
      rw [List.filter_cons_of_neg (by simp [hv]), List.filter_cons_of_pos (by simp [hv])]
      rw [uncastAll_cons]
    · rw [discardByValidator, if_neg (by simp [hv])]
      rw [ih]
      rw [List.filter_cons_of_pos (by simp [hv]), List.filter_cons_of_neg (by simp [hv])]

theorem find?_first_decomp {p : Vote → Bool} {l : List Vote} {v : Vote}
    (h : l.find? p = some v) :
    ∃ l1 l2, l = l1 ++ v :: l2 ∧ (∀ b ∈ l1, ¬ p b = true) ∧ p v = true ∧
      l.eraseP p = l1 ++ l2 := by
  induction l with
  | nil => simp at h
  | cons a l' ih =>
    by_cases hp : p a = true
    · rw [List.find?_cons_of_pos _ hp] at h
      injection h with hh
      subst hh
      exact ⟨[], l', by simp, by simp, hp, by simp [List.eraseP_cons_of_pos hp]⟩
    · rw [List.find?_cons_of_neg _ (by simpa using hp)] at h
      obtain ⟨l1, l2, he, hfree, hpv, her⟩ := ih h
      refine ⟨a :: l1, l2, by simp [he], ?_, hpv, ?_⟩
      · intro b hb
        rcases List.mem_cons.mp hb with rfl | hb'
        · exact hp
        · exact hfree b hb'
      · rw [List.eraseP_cons_of_neg (by simpa using hp), her]
        rfl

theorem discardPrev_valSet (s : Snapshot) (V T : Nat) :
    (discardPrev s V T).valSet = s.valSet := by
  rw [discardPrev]
  cases s.votes.find? (prevPred V T) <;> rfl

theorem discardPrev_epoch (s : Snapshot) (V T : Nat) :
    (discardPrev s V T).epoch = s.epoch := by
  rw [discardPrev]
  cases s.votes.find? (prevPred V T) <;> rfl

theorem consistent_discardPrev {s : Snapshot} (V T : Nat)
    (h : Consistent s.votes s.tally) :
    Consistent (discardPrev s V T).votes (discardPrev s V T).tally := by
  rw [discardPrev]
  cases hf : s.votes.find? (prevPred V T) with
  | none => exact h
  | some v =>
    obtain ⟨l1, l2, he, hfree, hpv, her⟩ := find?_first_decomp hf
    simp only [her]
    have hperm : s.votes.Perm (v :: (l1 ++ l2)) := by
      rw [he]
      exact List.perm_middle
    exact consistent_uncast_cons (consistent_perm hperm h)

theorem intentOk_discardPrev {s : Snapshot} (V T : Nat)
    (h : IntentOk s.valSet s.tally) :
    IntentOk (discardPrev s V T).valSet (discardPrev s V T).tally := by
  rw [discardPrev]
  cases hf : s.votes.find? (prevPred V T) with
  | none => exact h
  | some v => exact intentOk_uncastTally h v.address v.authorize

theorem pairCount_discardPrev_le (s : Snapshot) (V T S' T' : Nat) :
    pairCount (discardPrev s V T).votes S' T' ≤ pairCount s.votes S' T' := by
  rw [discardPrev]
  cases hf : s.votes.find? (prevPred V T) with
  | none => exact le_refl _
  | some v =>
    exact List.Sublist.countP_le _ (List.eraseP_sublist s.votes)

theorem pairUnique_discardPrev {s : Snapshot} (V T : Nat)
    (h : PairUnique s.votes) : PairUnique (discardPrev s V T).votes := by
  intro S' T'
  exact le_trans (pairCount_discardPrev_le s V T S' T') (h S' T')

theorem pairCount_discardPrev_self {s : Snapshot} (V T : Nat)
    (h : PairUnique s.votes) :
    pairCount (discardPrev s V T).votes V T = 0 := by
  rw [discardPrev]
  cases hf : s.votes.find? (prevPred V T) with
  | none =>
    simp only [pairCount, List.countP_eq_zero]
    exact fun a ha => by simpa using List.find?_eq_none.mp hf a ha
  | some v =>
    obtain ⟨l1, l2, he, hfree, hpv, her⟩ := find?_first_decomp hf
    have htot : pairCount s.votes V T ≤ 1 := h V T
    have hc1 : (l1.countP (prevPred V T)) = 0 :=
      List.countP_eq_zero.mpr (fun a ha => by simpa using hfree a ha)
    have hsplit : pairCount s.votes V T
        = l1.countP (prevPred V T) + (l2.countP (prevPred V T) + 1) := by
      rw [he]
      simp [pairCount, List.countP_append, List.countP_cons, hpv]
    have hc2 : l2.countP (prevPred V T) = 0 := by omega
    simp only [her]
    simp [pairCount, List.countP_append, hc1, hc2]

theorem checkVote_true_iff (s : Snapshot) (T : Nat) (a : Bool) :
    s.checkVote T a = true
      ↔ ((a = true ∧ T ∉ s.valSet.validators)
          ∨ (a = false ∧ T ∈ s.valSet.validators)) := by
  rw [Snapshot.checkVote]
  cases hs : (s.valSet.getByAddress T).isSome with
  | true =>
    have hmem := (getByAddress_isSome_iff s.valSet T).mp hs
    cases a <;> simp [hmem]
  | false =>
    have hmem := (getByAddress_isNone_iff s.valSet T).mp hs
    cases a <;> simp [hmem]

theorem checkVote_intent_eq {s : Snapshot} {T : Nat} {a : Bool} {old : Tally}
    (hc : s.checkVote T a = true) (h2 : IntentOk s.valSet s.tally)
    (hm : tallyLookup s.tally T = some old) : a = old.authorize := by
  have hio := h2 T old hm
  rcases (checkVote_true_iff s T a).mp hc with ⟨ha, hmem⟩ | ⟨ha, hmem⟩
  · subst ha
    exact (hio.mpr hmem).symm
  · subst ha
    cases hoa : old.authorize with
    | false => rfl
    | true => exact absurd hmem (hio.mp hoa)

theorem castAndLog_of_checkVote_false (s : Snapshot) (V T : Nat) (a : Bool) (n : Nat)
    (hc : s.checkVote T a = false) : castAndLog s V T a n = s := by
  rw [castAndLog, Snapshot.cast, hc]
  simp

theorem castAndLog_of_some {s : Snapshot} {T : Nat} {a : Bool} {old : Tally}
    (V : Nat) (n : Nat)
    (hc : s.checkVote T a = true) (hm : tallyLookup s.tally T = some old) :
    castAndLog s V T a n
      = { s with tally := tallySet s.tally T { old with votes := old.votes + 1 },
                 votes := s.votes ++
                   [{ validator := V, block := n, address := T, authorize := a }] } := by
  rw [castAndLog, Snapshot.cast, hc]
  simp only [Bool.not_true, Bool.false_eq_true, if_false, hm]

theorem castAndLog_of_none {s : Snapshot} {T : Nat} {a : Bool}
    (V : Nat) (n : Nat)
    (hc : s.checkVote T a = true) (hm : tallyLookup s.tally T = none) :
    castAndLog s V T a n
      = { s with tally := tallySet s.tally T { authorize := a, votes := 1 },
                 votes := s.votes ++
                   [{ validator := V, block := n, address := T, authorize := a }] } := by
  rw [castAndLog, Snapshot.cast, hc]
  simp only [Bool.not_true, Bool.false_eq_true, if_false, hm]

theorem castAndLog_valSet (s : Snapshot) (V T : Nat) (a : Bool) (n : Nat) :
    (castAndLog s V T a n).valSet = s.valSet := by
  cases hc : s.checkVote T a with
  | false => rw [castAndLog_of_checkVote_false _ _ _ _ _ hc]
  | true =>
    cases hm : tallyLookup s.tally T with
    | none => rw [castAndLog_of_none _ _ hc hm]
    | some old => rw [castAndLog_of_some _ _ hc hm]

theorem castAndLog_epoch (s : Snapshot) (V T : Nat) (a : Bool) (n : Nat) :
    (castAndLog s V T a n).epoch = s.epoch := by
  cases hc : s.checkVote T a with
  | false => rw [castAndLog_of_checkVote_false _ _ _ _ _ hc]
  | true =>
    cases hm : tallyLookup s.tally T with
    | none => rw [castAndLog_of_none _ _ hc hm]
    | some old => rw [castAndLog_of_some _ _ hc hm]

theorem consistent_castAndLog {s : Snapshot} (V T : Nat) (a : Bool) (n : Nat)
    (h1 : Consistent s.votes s.tally) (h2 : IntentOk s.valSet s.tally) :
    Consistent (castAndLog s V T a n).votes (castAndLog s V T a n).tally := by
  cases hc : s.checkVote T a with
  | false =>
    rw [castAndLog_of_checkVote_false _ _ _ _ _ hc]
    exact h1
  | true =>
    cases hm : tallyLookup s.tally T with
    | none =>
      rw [castAndLog_of_none _ _ hc hm]
      intro T'
      by_cases hT' : T' = T
      · subst hT'
        have hzero : targCount s.votes T' = 0 := (h1 T').1 hm
        constructor
        · intro hn
          rw [tallyLookup_tallySet_self] at hn
          exact absurd hn (by simp)
        · intro t' ht'
          rw [tallyLookup_tallySet_self] at ht'
          injection ht' with hh
          subst hh
          refine ⟨?_, by simp, ?_⟩
          · simp only [targCount_append, hzero, targCount_cons, targCount_nil]
            simp
          · intro w hw hwT
            rcases List.mem_append.mp hw with hw1 | hw2
            · exact absurd hwT ((targCount_eq_zero_iff _ _).mp hzero w hw1)
            · rcases List.mem_singleton.mp hw2 with rfl
              rfl
      · rw [tallyLookup_tallySet_ne _ _ _ _ hT']
        obtain ⟨g1, g2⟩ := h1 T'
        have hskip : targCount (s.votes ++
            [{ validator := V, block := n, address := T, authorize := a }]) T'
            = targCount s.votes T' := by
          rw [targCount_append, targCount_cons, targCount_nil]
          simp only
          rw [if_neg (fun hh => hT' hh.symm)]
          omega
        rw [hskip]
        refine ⟨g1, fun t' ht' => ?_⟩
        obtain ⟨ga, gb, gc⟩ := g2 t' ht'
        refine ⟨ga, gb, fun w hw hwT => ?_⟩
        rcases List.mem_append.mp hw with hw1 | hw2
        · exact gc w hw1 hwT
        · rcases List.mem_singleton.mp hw2 with rfl
          exact absurd hwT (fun hh => hT' hh.symm)
    | some old =>
      have ha : a = old.authorize := checkVote_intent_eq hc h2 hm
      rw [castAndLog_of_some _ _ hc hm]
      intro T'
      by_cases hT' : T' = T
      · subst hT'
        obtain ⟨g1, g2⟩ := h1 T'
        obtain ⟨ga, gb, gc⟩ := g2 old hm
        constructor
        · intro hn
          rw [tallyLookup_tallySet_self] at hn
          exact absurd hn (by simp)
        · intro t' ht'
          rw [tallyLookup_tallySet_self] at ht'
          injection ht' with hh
          subst hh
          refine ⟨?_, by simp, ?_⟩
          · rw [targCount_append, targCount_cons, targCount_nil]
            simp only [if_true, eq_self_iff_true]
            simp
            omega
          · intro w hw hwT
            rcases List.mem_append.mp hw with hw1 | hw2
            · exact gc w hw1 hwT
            · rcases List.mem_singleton.mp hw2 with rfl
              exact ha
      · rw [tallyLookup_tallySet_ne _ _ _ _ hT']
        obtain ⟨g1, g2⟩ := h1 T'
        have hskip : targCount (s.votes ++
            [{ validator := V, block := n, address := T, authorize := a }]) T'
            = targCount s.votes T' := by
          rw [targCount_append, targCount_cons, targCount_nil]
          simp only
          rw [if_neg (fun hh => hT' hh.symm)]
          omega
        rw [hskip]
        refine ⟨g1, fun t' ht' => ?_⟩
        obtain ⟨ga, gb, gc⟩ := g2 t' ht'
        refine ⟨ga, gb, fun w hw hwT => ?_⟩
        rcases List.mem_append.mp hw with hw1 | hw2
        · exact gc w hw1 hwT
        · rcases List.mem_singleton.mp hw2 with rfl
          exact absurd hwT (fun hh => hT' hh.symm)

theorem intentOk_castAndLog {s : Snapshot} (V T : Nat) (a : Bool) (n : Nat)
    (h2 : IntentOk s.valSet s.tally) :
    IntentOk (castAndLog s V T a n).valSet (castAndLog s V T a n).tally := by
  rw [castAndLog_valSet]
  cases hc : s.checkVote T a with
  | false =>
    rw [castAndLog_of_checkVote_false _ _ _ _ _ hc]
    exact h2
  | true =>
    cases hm : tallyLookup s.tally T with
    | none =>
      rw [castAndLog_of_none _ _ hc hm]
      intro T' t' ht'
      by_cases hT' : T' = T
      · subst hT'
        rw [tallyLookup_tallySet_self] at ht'
        injection ht' with hh
        subst hh
        simp only
        rcases (checkVote_true_iff s T' a).mp hc with ⟨ha, hmem⟩ | ⟨ha, hmem⟩
        · subst ha
          simp [hmem]
        · subst ha
          simp [hmem]
      · rw [tallyLookup_tallySet_ne _ _ _ _ hT'] at ht'
        exact h2 T' t' ht'
    | some old =>
      rw [castAndLog_of_some _ _ hc hm]
      intro T' t' ht'
      by_cases hT' : T' = T
      · subst hT'
        rw [tallyLookup_tallySet_self] at ht'
        injection ht' with hh
        subst hh
        exact h2 T' old hm
      · rw [tallyLookup_tallySet_ne _ _ _ _ hT'] at ht'
        exact h2 T' t' ht'

theorem countP_filter_of_imp {p q : Vote → Bool} {l : List Vote}
    (h : ∀ v, q v = true → p v = true) :
    (l.filter p).countP q = l.countP q := by
  induction l with
  | nil => rfl
  | cons a l' ih =>
    by_cases hq : q a = true
    · rw [List.filter_cons_of_pos (h a hq)]
      rw [List.countP_cons, List.countP_cons, ih]
    · by_cases hp : p a = true
      · rw [List.filter_cons_of_pos hp]
        rw [List.countP_cons, List.countP_cons, ih]
      · rw [List.filter_cons_of_neg (by simpa using hp)]
        rw [List.countP_cons, ih]
        simp [hq]

theorem targCount_filter_target_self (l : List Vote) (T : Nat) :
    targCount (l.filter (fun v => !(v.address == T))) T = 0 := by
  rw [targCount, List.countP_eq_zero]
  intro v hv
  have := List.of_mem_filter hv
  simpa using this

theorem targCount_filter_target_ne (l : List Vote) (T T' : Nat) (h : T' ≠ T) :
    targCount (l.filter (fun v => !(v.address == T))) T' = targCount l T' := by
  rw [targCount, targCount]
  refine countP_filter_of_imp ?_
  intro v hv
  simp only [beq_iff_eq] at hv
  simp [hv, h]

theorem consistent_purgeTarget {vs : List Vote} {tal : List (Nat × Tally)} (T : Nat)
    (h : Consistent vs tal) :
    Consistent (vs.filter (fun v => !(v.address == T))) (tallyErase tal T) := by
  intro T'
  by_cases hT' : T' = T
  · subst hT'
    rw [tallyLookup_tallyErase_self]
    exact ⟨fun _ => targCount_filter_target_self vs T',
      fun t' ht' => absurd ht' (by simp)⟩
  · rw [tallyLookup_tallyErase_ne _ _ _ hT', targCount_filter_target_ne _ _ _ hT']
    obtain ⟨g1, g2⟩ := h T'
    refine ⟨g1, fun t' ht' => ?_⟩
    obtain ⟨ga, gb, gc⟩ := g2 t' ht'
    exact ⟨ga, gb, fun w hw hwT => gc w (List.mem_of_mem_filter hw) hwT⟩

theorem resolveAfterCast_of_le (s : Snapshot) (T : Nat)
    (h : ((tallyLookup s.tally T).getD { authorize := false, votes := 0 }).votes
      ≤ s.valSet.size / 2) :
    resolveAfterCast s T = s := by
  simp only [resolveAfterCast]
  rw [if_neg (by omega)]

theorem resolveAfterCast_of_auth (s : Snapshot) (T : Nat)
    (h : s.valSet.size / 2
      < ((tallyLookup s.tally T).getD { authorize := false, votes := 0 }).votes)
    (ha : ((tallyLookup s.tally T).getD { authorize := false, votes := 0 }).authorize
      = true) :
    resolveAfterCast s T
      = { s with valSet := s.valSet.addValidator T,
                 votes := s.votes.filter (fun v => !(v.address == T)),
                 tally := tallyErase s.tally T } := by
  simp only [resolveAfterCast]
  rw [if_pos h, if_pos ha]

theorem resolveAfterCast_of_drop (s : Snapshot) (T : Nat)
    (h : s.valSet.size / 2
      < ((tallyLookup s.tally T).getD { authorize := false, votes := 0 }).votes)
    (ha : ((tallyLookup s.tally T).getD { authorize := false, votes := 0 }).authorize
      = false) :
    resolveAfterCast s T
      = { s with valSet := s.valSet.removeValidator T,
                 votes := ((discardByValidator T s.votes s.tally).1).filter
                   (fun v => !(v.address == T)),
                 tally := tallyErase (discardByValidator T s.votes s.tally).2 T } := by
  simp only [resolveAfterCast]
  rw [if_pos h, if_neg (by simp [ha])]

theorem consistent_resolveAfterCast {s : Snapshot} (T : Nat)
    (h1 : Consistent s.votes s.tally) :
    Consistent (resolveAfterCast s T).votes (resolveAfterCast s T).tally := by
  set tz := (tallyLookup s.tally T).getD { authorize := false, votes := 0 } with htz
  by_cases hres : s.valSet.size / 2 < tz.votes
  · cases ha : tz.authorize with
    | true =>
      rw [resolveAfterCast_of_auth s T hres ha]
      exact consistent_purgeTarget T h1
    | false =>
      rw [resolveAfterCast_of_drop s T hres ha]
      rw [discardByValidator_spec]
      refine consistent_purgeTarget T (consistent_uncastAll ?_)
      refine consistent_perm ?_ h1
      exact (List.filter_append_perm _ s.votes).symm
  · rw [resolveAfterCast_of_le s T (by rw [← htz]; omega)]
    exact h1

theorem intentOk_resolveAfterCast {s : Snapshot} (T : Nat)
    (h2 : IntentOk s.valSet s.tally) :
    IntentOk (resolveAfterCast s T).valSet (resolveAfterCast s T).tally := by
  set tz := (tallyLookup s.tally T).getD { authorize := false, votes := 0 } with htz
  by_cases hres : s.valSet.size / 2 < tz.votes
  · cases ha : tz.authorize with
    | true =>
      rw [resolveAfterCast_of_auth s T hres ha]
      intro T' t' ht'
      by_cases hT' : T' = T
      · subst hT'
        rw [tallyLookup_tallyErase_self] at ht'
        exact absurd ht' (by simp)
      · rw [tallyLookup_tallyErase_ne _ _ _ hT'] at ht'
        have := h2 T' t' ht'
        rw [this]
        simp only [addValidator_mem_iff]
        constructor
        · intro hn hmem
          rcases hmem with hmem | hmem
          · exact hn hmem
          · exact hT' hmem
        · intro hn hmem
          exact hn (Or.inl hmem)
    | false =>
      rw [resolveAfterCast_of_drop s T hres ha]
      intro T' t' ht'
      by_cases hT' : T' = T
      · subst hT'
        rw [tallyLookup_tallyErase_self] at ht'
        exact absurd ht' (by simp)
      · rw [tallyLookup_tallyErase_ne _ _ _ hT'] at ht'
        rw [discardByValidator_spec] at ht'
        obtain ⟨t0, ht0, he0⟩ := uncastAll_lookup_intent ht'
        rw [he0]
        have := h2 T' t0 ht0
        rw [this]
        simp only [removeValidator_mem_iff]
        constructor
        · intro hn hmem
          exact hn hmem.1
        · intro hn hmem
          exact hn ⟨hmem, hT'⟩
  · rw [resolveAfterCast_of_le s T (by rw [← htz]; omega)]
    exact h2

theorem resolveAfterCast_votes_sublist (s : Snapshot) (T : Nat) :
    (resolveAfterCast s T).votes.Sublist s.votes := by
  set tz := (tallyLookup s.tally T).getD { authorize := false, votes := 0 } with htz
  by_cases hres : s.valSet.size / 2 < tz.votes
  · cases ha : tz.authorize with
    | true =>
      rw [resolveAfterCast_of_auth s T hres ha]
      exact List.filter_sublist _
    | false =>
      rw [resolveAfterCast_of_drop s T hres ha]
      rw [discardByValidator_spec]
      exact ((List.filter_sublist _).trans (List.filter_sublist _))
  · rw [resolveAfterCast_of_le s T (by rw [← htz]; omega)]

theorem pairUnique_resolveAfterCast {s : Snapshot} (T : Nat)
    (h3 : PairUnique s.votes) : PairUnique (resolveAfterCast s T).votes := by
  intro S' T'
  exact le_trans
    (List.Sublist.countP_le _ (resolveAfterCast_votes_sublist s T)) (h3 S' T')

theorem castAndLog_votes_cases (s : Snapshot) (V T : Nat) (a : Bool) (n : Nat) :
    (castAndLog s V T a n).votes = s.votes
    ∨ (castAndLog s V T a n).votes = s.votes ++
        [{ validator := V, block := n, address := T, authorize := a }] := by
  cases hc : s.checkVote T a with
  | false =>
    rw [castAndLog_of_checkVote_false _ _ _ _ _ hc]
    exact Or.inl rfl
  | true =>
    cases hm : tallyLookup s.tally T with
    | none =>
      rw [castAndLog_of_none _ _ hc hm]
      exact Or.inr rfl
    | some old =>
      rw [castAndLog_of_some _ _ hc hm]
      exact Or.inr rfl

theorem pairUnique_castAndLog {s : Snapshot} {V T : Nat} (a : Bool) (n : Nat)
    (h3 : PairUnique s.votes) (hz : pairCount s.votes V T = 0) :
    PairUnique (castAndLog s V T a n).votes := by
  intro S' T'
  rcases castAndLog_votes_cases s V T a n with hv | hv
  · rw [hv]; exact h3 S' T'
  · rw [hv, pairCount_append, pairCount_cons]
    have hb := h3 S' T'
    by_cases hmatch : V = S' ∧ T = T'
    · obtain ⟨rfl, rfl⟩ := hmatch
      rw [hz]
      simp [pairCount]
    · rw [if_neg (by simpa using hmatch)]
      simp only [pairCount, List.countP_nil]
      simp only [pairCount] at hb
      omega

theorem snapInv_processVote {s s' : Snapshot} {V T : Nat} {intent : Option Bool}
    {n : Nat} (h : SnapInv s) (hp : processVote s V T intent n = .ok s') :
    SnapInv s' := by
  obtain ⟨h1, h2, h3⟩ := h
  cases intent with
  | none => simp [processVote] at hp
  | some a =>
    simp only [processVote, Except.ok.injEq] at hp
    subst hp
    have h1d := consistent_discardPrev (s := s) V T h1
    have h2d := intentOk_discardPrev (s := s) V T h2
    have h3d := pairUnique_discardPrev (s := s) V T h3
    have hz := pairCount_discardPrev_self (s := s) V T h3
    have h1c := consistent_castAndLog (s := discardPrev s V T) V T a n h1d h2d
    have h2c := intentOk_castAndLog (s := discardPrev s V T) V T a n h2d
    have h3c := pairUnique_castAndLog (s := discardPrev s V T) a n h3d hz
    refine ⟨consistent_resolveAfterCast T h1c, ?_, pairUnique_resolveAfterCast T h3c⟩
    exact intentOk_resolveAfterCast T h2c

theorem epochClear_valSet (s : Snapshot) (n : Nat) :
    (epochClear s n).valSet = s.valSet := by
  rw [epochClear]
  split <;> rfl

theorem snapInv_epochClear (s : Snapshot) (n : Nat) (h : SnapInv s) :
    SnapInv (epochClear s n) := by
  rw [epochClear]
  split
  · refine ⟨consistent_nil _ rfl, ?_, ?_⟩
    · intro T t ht
      exact absurd ht (by simp [tallyLookup_nil])
    · intro S T
      simp [pairCount]
  · exact h

theorem snapInv_legacyApply {s s' : Snapshot} {h : Header}
    (hi : SnapInv s) (hp : legacyApply s h = .ok s') : SnapInv s' := by
  rw [legacyApply, legacyPost] at hp
  have hi0 := snapInv_epochClear s h.number hi
  by_cases hcond :
      ((epochClear s h.number).valSet.getByAddress h.signer).isSome = false
  · rw [if_pos hcond] at hp
    exact absurd hp (by simp)
  · rw [if_neg hcond] at hp
    exact snapInv_processVote hi0 hp

theorem snapInv_qbftApply {s s' : Snapshot} {h : Header}
    (hi : SnapInv s) (hp : qbftApply s h = .ok s') : SnapInv s' := by
  rw [qbftApply, qbftPost] at hp
  have hi0 := snapInv_epochClear s h.number hi
  by_cases hcond :
      ((epochClear s h.number).valSet.getByAddress h.qbftSigner).isSome = false
  · rw [if_pos hcond] at hp
    exact absurd hp (by simp)
  · rw [if_neg hcond] at hp
    cases hx : h.extra with
    | none =>
      rw [hx] at hp
      exact absurd hp (by simp)
    | some extra =>
      rw [hx] at hp
      exact snapInv_processVote hi0 hp

theorem snapInv_foldHeaders {isQ : Bool} {qbn : Int} :
    ∀ {hs : List Header} {s s' : Snapshot}, SnapInv s →
      foldHeaders isQ qbn s hs = .ok s' → SnapInv s' := by
  intro hs
  induction hs with
  | nil =>
    intro s s' hi hp
    simp only [foldHeaders, Except.ok.injEq] at hp
    subst hp
    exact hi
  | cons h rest ih =>
    intro s s' hi hp
    rw [foldHeaders] at hp
    cases he : (if isQ && ((h.number : Int) > qbn)
        then qbftApply s h else legacyApply s h) with
    | error e =>
      rw [he] at hp
      exact absurd hp (by simp)
    | ok s1 =>
      rw [he] at hp
      have hi1 : SnapInv s1 := by
        by_cases hsel : (isQ && ((h.number : Int) > qbn)) = true
        · rw [if_pos hsel] at he
          exact snapInv_qbftApply hi he
        · rw [if_neg hsel] at he
          exact snapInv_legacyApply hi he
      exact ih hi1 hp

theorem snapInv_apply {s s' : Snapshot} {hs : List Header} {isQ : Bool} {qbn : Int}
    (hi : SnapInv s) (hp : s.apply hs isQ qbn = .ok s') : SnapInv s' := by
  cases hs with
  | nil =>
    simp only [Snapshot.apply, Except.ok.injEq] at hp
    subst hp
    exact hi
  | cons h0 rest =>
    rw [Snapshot.apply] at hp
    by_cases hc1 : contiguousRun (h0 :: rest) = false
    · rw [if_pos hc1] at hp
      exact absurd hp (by simp)
    · rw [if_neg hc1] at hp
      by_cases hc2 : (h0.number == s.number + 1) = false
      · rw [if_pos hc2] at hp
        exact absurd hp (by simp)
      · rw [if_neg hc2] at hp
        cases hf : foldHeaders isQ qbn s.copy (h0 :: rest) with
        | error e =>
          rw [hf] at hp
          exact absurd hp (by simp)
        | ok snap =>
          rw [hf] at hp
          simp only [Except.ok.injEq] at hp
          subst hp
          have : SnapInv snap := snapInv_foldHeaders hi hf
          exact this

theorem snapInv_reachable {s : Snapshot} (h : Reachable s) : SnapInv s := by
  induction h with
  | genesis e n hh vs =>
    refine ⟨consistent_nil _ rfl, ?_, ?_⟩
    · intro T t ht
      exact absurd ht (by simp [newSnapshot, tallyLookup_nil])
    · intro S T
      simp [newSnapshot, pairCount]
  | step hs isQ qbn hr hap ih =>
    exact snapInv_apply ih hap

theorem resolveAfterCast_votes_target {s : Snapshot} {T : Nat}
    (h : s.valSet.size / 2
      < ((tallyLookup s.tally T).getD { authorize := false, votes := 0 }).votes) :
    ∀ v ∈ (resolveAfterCast s T).votes, ¬ v.address = T := by
  cases ha : ((tallyLookup s.tally T).getD { authorize := false, votes := 0 }).authorize
  · rw [resolveAfterCast_of_drop s T h ha]
    intro v hv
    have := List.of_mem_filter hv
    simpa using this
  · rw [resolveAfterCast_of_auth s T h ha]
    intro v hv
    have := List.of_mem_filter hv
    simpa using this

theorem resolveAfterCast_tally_none {s : Snapshot} {T : Nat}
    (h : s.valSet.size / 2
      < ((tallyLookup s.tally T).getD { authorize := false, votes := 0 }).votes) :
    tallyLookup (resolveAfterCast s T).tally T = none := by
  cases ha : ((tallyLookup s.tally T).getD { authorize := false, votes := 0 }).authorize
  · rw [resolveAfterCast_of_drop s T h ha]
    exact tallyLookup_tallyErase_self _ _
  · rw [resolveAfterCast_of_auth s T h ha]
    exact tallyLookup_tallyErase_self _ _

theorem resolveAfterCast_votes_validator {s : Snapshot} {T : Nat}
    (h : s.valSet.size / 2
      < ((tallyLookup s.tally T).getD { authorize := false, votes := 0 }).votes)
    (ha : ((tallyLookup s.tally T).getD { authorize := false, votes := 0 }).authorize
      = false) :
    ∀ v ∈ (resolveAfterCast s T).votes, ¬ v.validator = T := by
  rw [resolveAfterCast_of_drop s T h ha]
  intro v hv
  have h1 := List.mem_of_mem_filter hv
  rw [discardByValidator_spec] at h1
  have := List.of_mem_filter h1
  simpa using this

/-- C1: for every snapshot and every vote event folded by either strategy
(both `legacyApply` and `qbftApply` run `processVote`, which executes
`resolveAfterCast` on `postCastState`, the state immediately after the
vote was cast), the target resolves exactly when its tally count strictly
exceeds half the validator-set size: at or below half, the fold returns
the post-cast state unchanged; above half, the target is added on an
authorize tally and removed on a deauthorize tally, on removal every log
entry cast by the removed identity is purged with its tally reverted
(the purge keeps the tally consistent with the remaining log), and in
both branches every log entry targeting the resolved address is purged
and the target's tally entry is deleted. -/
theorem theorem_C1 (s s' : Snapshot) (V T : Nat) (a : Bool) (n : Nat)
    (hres : processVote s V T (some a) n = .ok s') :
    s' = resolveAfterCast (postCastState s V T a n) T
    ∧ (tallyVotesAt (postCastState s V T a n) T
        ≤ (postCastState s V T a n).valSet.size / 2 →
        s' = postCastState s V T a n)
    ∧ ((postCastState s V T a n).valSet.size / 2
        < tallyVotesAt (postCastState s V T a n) T →
        (tallyAuthorizeAt (postCastState s V T a n) T = true →
          s'.valSet = (postCastState s V T a n).valSet.addValidator T)
        ∧ (tallyAuthorizeAt (postCastState s V T a n) T = false →
          s'.valSet = (postCastState s V T a n).valSet.removeValidator T
          ∧ ∀ v ∈ s'.votes, ¬ v.validator = T)
        ∧ (∀ v ∈ s'.votes, ¬ v.address = T)
        ∧ tallyLookup s'.tally T = none
        ∧ (Consistent s.votes s.tally → IntentOk s.valSet s.tally →
            Consistent s'.votes s'.tally)) := by
  have hs' : s' = resolveAfterCast (postCastState s V T a n) T := by
    simp only [processVote, Except.ok.injEq] at hres
    exact hres.symm
  subst hs'
  refine ⟨rfl, ?_, ?_⟩
  · intro hle
    rw [tallyVotesAt] at hle
    exact resolveAfterCast_of_le _ T hle
  · intro hgt
    rw [tallyVotesAt] at hgt
    refine ⟨?_, ?_, resolveAfterCast_votes_target hgt,
            resolveAfterCast_tally_none hgt, ?_⟩
    · intro hauth
      rw [tallyAuthorizeAt] at hauth
      rw [resolveAfterCast_of_auth _ T hgt hauth]
    · intro hauth
      rw [tallyAuthorizeAt] at hauth
      refine ⟨?_, resolveAfterCast_votes_validator hgt hauth⟩
      rw [resolveAfterCast_of_drop _ T hgt hauth]
    · intro hcons hint
      refine consistent_resolveAfterCast T ?_
      exact consistent_castAndLog V T a n
        (consistent_discardPrev V T hcons) (intentOk_discardPrev V T hint)

/-- Witness for C1: with the single validator 1, an authorize vote for 2 at
block 101 is an immediate majority (1 > 1/2 = 0): 2 is added, the log
purged and the tally entry deleted. -/
theorem witness_C1 :
    processVote snapA 1 2 (some true) 101 = Except.ok snapAfterAdd
    ∧ (snapAfterAdd = resolveAfterCast (postCastState snapA 1 2 true 101) 2
      ∧ (tallyVotesAt (postCastState snapA 1 2 true 101) 2
          ≤ (postCastState snapA 1 2 true 101).valSet.size / 2 →
          snapAfterAdd = postCastState snapA 1 2 true 101)
      ∧ ((postCastState snapA 1 2 true 101).valSet.size / 2
          < tallyVotesAt (postCastState snapA 1 2 true 101) 2 →
          (tallyAuthorizeAt (postCastState snapA 1 2 true 101) 2 = true →
            snapAfterAdd.valSet
              = (postCastState snapA 1 2 true 101).valSet.addValidator 2)
          ∧ (tallyAuthorizeAt (postCastState snapA 1 2 true 101) 2 = false →
            snapAfterAdd.valSet
              = (postCastState snapA 1 2 true 101).valSet.removeValidator 2
            ∧ ∀ v ∈ snapAfterAdd.votes, ¬ v.validator = 2)
          ∧ (∀ v ∈ snapAfterAdd.votes, ¬ v.address = 2)
          ∧ tallyLookup snapAfterAdd.tally 2 = none
          ∧ (Consistent snapA.votes snapA.tally →
              IntentOk snapA.valSet snapA.tally →
              Consistent snapAfterAdd.votes snapAfterAdd.tally))) :=
  ⟨rfl, theorem_C1 snapA snapAfterAdd 1 2 true 101 rfl⟩

/-- C2: `apply` on a non-empty header run with a gap between adjacent
numbers or a first header that does not extend the snapshot's height
fails with `errInvalidVotingChain`.  The `Except` result of a failing
fold carries no snapshot, and the embedding is pure, so the receiver
is never mutated (in Go, `apply` folds into a deep copy). -/
theorem theorem_C2 (s : Snapshot) (h0 : Header) (rest : List Header)
    (isQ : Bool) (qbn : Int)
    (hbad : contiguousRun (h0 :: rest) = false ∨ h0.number ≠ s.number + 1) :
    s.apply (h0 :: rest) isQ qbn = .error .invalidVotingChain := by
  rw [Snapshot.apply]
  rcases hbad with hb | hb
  · rw [if_pos hb]
  · by_cases hc : contiguousRun (h0 :: rest) = false
    · rw [if_pos hc]
    · rw [if_neg hc, if_pos (by simp [hb])]

/-- Witness for C2: headers numbered 1 and 3 have a gap, so the fold from
height 0 fails with `errInvalidVotingChain`. -/
theorem witness_C2 :
    (contiguousRun [hAuth4, hGap] = false ∨ hAuth4.number ≠ gen3.number + 1)
    ∧ gen3.apply [hAuth4, hGap] false 0 = .error .invalidVotingChain :=
  ⟨Or.inl rfl, theorem_C2 gen3 hAuth4 [hGap] false 0 (Or.inl rfl)⟩

/-- C5: `checkVote` returns true exactly when the vote would change the
current authorization state, and a vote failing `checkVote` leaves the
snapshot untouched: no tally entry is created and no log entry appended. -/
theorem theorem_C5 (s : Snapshot) (T : Nat) (a : Bool) :
    (s.checkVote T a = true
      ↔ ((a = true ∧ T ∉ s.valSet.validators)
          ∨ (a = false ∧ T ∈ s.valSet.validators)))
    ∧ (s.checkVote T a = false → ∀ V n, castAndLog s V T a n = s) :=
  ⟨checkVote_true_iff s T a,
   fun hc V n => castAndLog_of_checkVote_false s V T a n hc⟩

/-- Witness for C5: an authorize vote for the already-authorized identity 1
fails `checkVote` and casting it is a no-op. -/
theorem witness_C5 :
    (gen3.checkVote 1 true = true
      ↔ ((true = true ∧ (1 : Nat) ∉ gen3.valSet.validators)
          ∨ (true = false ∧ (1 : Nat) ∈ gen3.valSet.validators)))
    ∧ (gen3.checkVote 1 true = false → ∀ V n, castAndLog gen3 V 1 true n = gen3) :=
  theorem_C5 gen3 1 true

/-- C6: folding a header whose number is an epoch multiple clears the vote
log and the tally before anything else, in both modes: the fold equals the
post-checkpoint processing (`legacyPost`/`qbftPost`, which still processes
the header's own vote) applied to the emptied snapshot. -/
theorem theorem_C6 (s : Snapshot) (h : Header) (_he : 0 < s.epoch)
    (hm : h.number % s.epoch = 0) :
    legacyApply s h = legacyPost { s with votes := [], tally := [] } h
    ∧ qbftApply s h = qbftPost { s with votes := [], tally := [] } h := by
  have hc : epochClear s h.number = { s with votes := [], tally := [] } := by
    rw [epochClear, if_pos (by simp [hm])]
  rw [legacyApply, qbftApply, hc]
  exact ⟨rfl, rfl⟩

/-- Witness for C6: block 10 is an epoch multiple for epoch 5; the fold of
`hEpoch` runs on the emptied snapshot in both modes. -/
theorem witness_C6 :
    0 < genEpoch5.epoch ∧ hEpoch.number % genEpoch5.epoch = 0
    ∧ legacyApply genEpoch5 hEpoch
        = legacyPost { genEpoch5 with votes := [], tally := [] } hEpoch
    ∧ qbftApply genEpoch5 hEpoch
        = qbftPost { genEpoch5 with votes := [], tally := [] } hEpoch :=
  ⟨by decide, rfl,
   (theorem_C6 genEpoch5 hEpoch (by decide) rfl).1,
   (theorem_C6 genEpoch5 hEpoch (by decide) rfl).2⟩

/-- C7: deserializing the serialized record of any snapshot restores the
epoch, number, hash, vote log (verbatim, order-preserving) and tally, and
rebuilds a validator set with exactly the same membership; the record
carries the ascending-sorted validator identity list and the ordering-
policy identifier. -/
theorem theorem_C7 (s : Snapshot) :
    (unmarshalSnapshot s.toJSONStruct).epoch = s.epoch
    ∧ (unmarshalSnapshot s.toJSONStruct).number = s.number
    ∧ (unmarshalSnapshot s.toJSONStruct).hash = s.hash
    ∧ (unmarshalSnapshot s.toJSONStruct).votes = s.votes
    ∧ (unmarshalSnapshot s.toJSONStruct).tally = s.tally
    ∧ (∀ a : Nat, a ∈ (unmarshalSnapshot s.toJSONStruct).valSet.validators
        ↔ a ∈ s.valSet.validators)
    ∧ List.Sorted (fun x y => x ≤ y) s.toJSONStruct.validators
    ∧ s.toJSONStruct.validators.Perm s.valSet.validators
    ∧ s.toJSONStruct.policy = s.valSet.policy := by
  refine ⟨rfl, rfl, rfl, rfl, rfl, ?_, ?_, ?_, rfl⟩
  · intro a
    exact (List.perm_insertionSort _ s.valSet.validators).mem_iff
  · exact List.sorted_insertionSort _ _
  · exact List.perm_insertionSort _ _

/-- Counterexample for C8 as stated: a qbft header whose extra data fails
to decode but whose recovered signer is not an authorized validator fails
with `errUnauthorized`, not `errInvalidExtraDataFormat` — the
authorization check precedes the extra-data decoding. -/
theorem counterexample_C8 :
    hUnauthNoExtra.extra = none
    ∧ qbftApply gen3 hUnauthNoExtra = .error .unauthorized
    ∧ IstErr.unauthorized ≠ IstErr.invalidExtraDataFormat :=
  ⟨rfl, rfl, by decide⟩

/-- C8 (amended): for every qbft-folded header whose recovered signer is a
current validator, a failed extra-data decode fails the fold with
`errInvalidExtraDataFormat`; a decoded extra without an embedded vote
folds exactly as the same header carrying an explicit drop vote against
the zero identity; and an embedded vote whose vote-type tag is neither
the authorize nor the drop tag fails with `errInvalidVote`. -/
theorem theorem_C8 (s : Snapshot) (h : Header)
    (hauth : (s.valSet.getByAddress h.qbftSigner).isSome = true) :
    (h.extra = none → qbftApply s h = .error .invalidExtraDataFormat)
    ∧ (∀ e : QbftExtra, h.extra = some e → e.vote = none →
        qbftApply s h = qbftApply s (withDropVote h))
    ∧ (∀ (e : QbftExtra) (vv : ValidatorVote),
        h.extra = some e → e.vote = some vv →
        vv.voteType ≠ qbftAuthVote → vv.voteType ≠ qbftDropVote →
        qbftApply s h = .error .invalidVote) := by
  have hif : ¬ (((epochClear s h.number).valSet.getByAddress h.qbftSigner).isSome
      = false) := by
    rw [epochClear_valSet, hauth]
    simp
  refine ⟨?_, ?_, ?_⟩
  · intro hx
    rw [qbftApply, qbftPost, if_neg hif, hx]
  · intro e hx hv
    have hif2 : ¬ ((((epochClear s (withDropVote h).number).valSet.getByAddress
        (withDropVote h).qbftSigner).isSome) = false) := by
      rw [epochClear_valSet]
      rw [show (withDropVote h).qbftSigner = h.qbftSigner from rfl, hauth]
      simp
    rw [qbftApply, qbftPost, if_neg hif, hx]
    rw [qbftApply, qbftPost, if_neg hif2]
    simp only [hv, Option.getD_none, Option.getD_some]
    rfl
  · intro e vv hx hv h1 h2
    rw [qbftApply, qbftPost, if_neg hif, hx]
    simp only [hv, Option.getD_some]
    have hti : voteTypeIntent vv.voteType = none := by
      rw [voteTypeIntent, if_neg (by simp [h1]), if_neg (by simp [h2])]
    simp only [processVote, hti]

/-- Witness for C8: the signer of `hBadTag` is the validator 1, its
embedded vote carries the unrecognized tag 7, and the fold fails with
`errInvalidVote`. -/
theorem witness_C8 :
    qbftApply gen3 hBadTag = .error .invalidVote
    ∧ ((hBadTag.extra = none →
        qbftApply gen3 hBadTag = .error .invalidExtraDataFormat)
      ∧ (∀ e : QbftExtra, hBadTag.extra = some e → e.vote = none →
          qbftApply gen3 hBadTag = qbftApply gen3 (withDropVote hBadTag))
      ∧ (∀ (e : QbftExtra) (vv : ValidatorVote),
          hBadTag.extra = some e → e.vote = some vv →
          vv.voteType ≠ qbftAuthVote → vv.voteType ≠ qbftDropVote →
          qbftApply gen3 hBadTag = .error .invalidVote)) :=
  ⟨rfl, theorem_C8 gen3 hBadTag rfl⟩

/-- C3: in every snapshot reachable from a genesis snapshot by `apply`,
the tally is exactly the aggregate of the vote log: an address has a
tally entry iff at least one log entry targets it, the entry's count
equals the number of log entries targeting it (each carrying the entry's
intent), and the count is at least 1 while the entry exists — an entry
whose count reaches 0 is deleted, never retained at 0. -/
theorem theorem_C3 (s : Snapshot) (hr : Reachable s) :
    ∀ T : Nat,
      ((∃ t : Tally, tallyLookup s.tally T = some t) ↔ 1 ≤ targCount s.votes T)
      ∧ (∀ t : Tally, tallyLookup s.tally T = some t →
          t.votes = targCount s.votes T ∧ 1 ≤ t.votes ∧
          ∀ v ∈ s.votes, v.address = T → v.authorize = t.authorize) := by
  obtain ⟨h1, h2, h3⟩ := snapInv_reachable hr
  intro T
  obtain ⟨g1, g2⟩ := h1 T
  refine ⟨⟨?_, ?_⟩, g2⟩
  · rintro ⟨t, ht⟩
    obtain ⟨ga, gb, _⟩ := g2 t ht
    omega
  · intro hc
    cases hm : tallyLookup s.tally T with
    | none =>
      have := g1 hm
      omega
    | some t => exact ⟨t, rfl⟩

/-- Witness for C3: in the reachable snapshot `snap45`, the entry for
target 4 has count 1, matched by exactly one log entry of intent true. -/
theorem witness_C3 :
    ((∃ t : Tally, tallyLookup snap45.tally 4 = some t)
      ↔ 1 ≤ targCount snap45.votes 4)
    ∧ (∀ t : Tally, tallyLookup snap45.tally 4 = some t →
        t.votes = targCount snap45.votes 4 ∧ 1 ≤ t.votes ∧
        ∀ v ∈ snap45.votes, v.address = 4 → v.authorize = t.authorize) :=
  theorem_C3 snap45
    (Reachable.step [hAuth4, hAuth5] false 0
      (Reachable.genesis 10 0 0 vset3) rfl) 4

/-- C4: in every reachable snapshot a signer has at most one live log
entry against any given target, and the duplicate-discard step run before
each cast leaves no live entry for the casting (signer, target) pair —
the new vote is therefore cast into a state where the old one has been
reverted. -/
theorem theorem_C4 (s : Snapshot) (hr : Reachable s) :
    (∀ S T : Nat, pairCount s.votes S T ≤ 1)
    ∧ (∀ S T : Nat, pairCount (discardPrev s S T).votes S T = 0) := by
  obtain ⟨h1, h2, h3⟩ := snapInv_reachable hr
  exact ⟨h3, fun S T => pairCount_discardPrev_self S T h3⟩

/-- Witness for C4: in `snap45` signer 1 has exactly one live vote against
target 4, and the discard step empties the (1, 4) pair. -/
theorem witness_C4 :
    pairCount snap45.votes 1 4 ≤ 1
    ∧ pairCount (discardPrev snap45 1 4).votes 1 4 = 0 :=
  ⟨(theorem_C4 snap45
      (Reachable.step [hAuth4, hAuth5] false 0
        (Reachable.genesis 10 0 0 vset3) rfl)).1 1 4,
   (theorem_C4 snap45
      (Reachable.step [hAuth4, hAuth5] false 0
        (Reachable.genesis 10 0 0 vset3) rfl)).2 1 4⟩

/-- C10: in every reachable snapshot, every tally entry's intent agrees
with current validator membership: an authorize entry targets a
non-member and a deauthorize entry targets a member.  This is what makes
`cast`'s unconditional increment of an existing entry sound although it
never compares the new vote's intent with the stored one. -/
theorem theorem_C10 (s : Snapshot) (hr : Reachable s) :
    ∀ (T : Nat) (t : Tally), tallyLookup s.tally T = some t →
      (t.authorize = true ↔ T ∉ s.valSet.validators) :=
  (snapInv_reachable hr).2.1

/-- Witness for C10: in `snap45` the entry for 4 is an authorize entry and
4 is not a member of the validator set. -/
theorem witness_C10 :
    ({ authorize := true, votes := 1 } : Tally).authorize = true
      ↔ (4 : Nat) ∉ snap45.valSet.validators :=
  theorem_C10 snap45
    (Reachable.step [hAuth4, hAuth5] false 0
      (Reachable.genesis 10 0 0 vset3) rfl)
    4 { authorize := true, votes := 1 } rfl

/-- Counterexample for C9 as stated: after validator 1 votes for target 4
at block 1 and for target 5 at block 2, the reachable snapshot `snap45`
holds two live log entries by the same signer — pending votes are only
deduplicated per (signer, target) pair, not per signer. -/
theorem counterexample_C9 :
    gen3.apply [hAuth4, hAuth5] false 0 = .ok snap45
    ∧ 2 ≤ snap45.votes.countP (fun v => v.validator == 1) :=
  ⟨rfl, by decide⟩

theorem countP_filter_votes (p q : Vote → Bool) (l : List Vote) :
    (l.filter q).countP p = l.countP (fun v => p v && q v) := by
  induction l with
  | nil => rfl
  | cons a l' ih =>
    by_cases hq : q a = true
    · rw [List.filter_cons_of_pos hq, List.countP_cons, List.countP_cons, ih, hq]
      simp
    · rw [List.filter_cons_of_neg (by simpa using hq), List.countP_cons, ih]
      have : q a = false := by simpa using hq
      simp [this]

theorem countP_ext_votes (p q : Vote → Bool) (h : ∀ v, p v = q v) (l : List Vote) :
    l.countP p = l.countP q := by
  induction l with
  | nil => rfl
  | cons a l' ih =>
    rw [List.countP_cons, List.countP_cons, ih, h a]

/-- C9 (amended): in every reachable snapshot each signer has at most one
pending vote per target in the vote log; a signer may simultaneously hold
pending votes against several distinct targets (see the counterexample). -/
theorem theorem_C9 (s : Snapshot) (hr : Reachable s) :
    ∀ S T : Nat,
      ((s.votes.filter (fun v => v.validator == S)).filter
        (fun v => v.address == T)).length ≤ 1 := by
  intro S T
  have h3 := (snapInv_reachable hr).2.2
  have e1 : ((s.votes.filter (fun v => v.validator == S)).filter
      (fun v => v.address == T)).length
      = (s.votes.filter (fun v => v.validator == S)).countP
          (fun v => v.address == T) :=
    (List.countP_eq_length_filter _ _).symm
  have e2 : (s.votes.filter (fun v => v.validator == S)).countP
      (fun v => v.address == T)
      = s.votes.countP (fun v => (v.address == T) && (v.validator == S)) :=
    countP_filter_votes _ _ _
  have e3 : s.votes.countP (fun v => (v.address == T) && (v.validator == S))
      = s.votes.countP (prevPred S T) :=
    countP_ext_votes _ _ (fun v => by rw [prevPred, Bool.and_comm]) _
  rw [e1, e2, e3]
  exact h3 S T

/-- Witness for C9 (amended): the (signer 1, target 5) pair has a single
live entry in `snap45`. -/
theorem witness_C9 :
    ((snap45.votes.filter (fun v => v.validator == 1)).filter
      (fun v => v.address == 5)).length ≤ 1 :=
  theorem_C9 snap45
    (Reachable.step [hAuth4, hAuth5] false 0
      (Reachable.genesis 10 0 0 vset3) rfl) 1 5
